import Mathlib

/-!
Shallow embedding of `tea_tasting/aggr.py`: the `Aggregates` store of
aggregated statistics (count, mean, variance, covariance), its accessors,
the Delta-method ratio variance, the `filter` projection and the merge
operator `__add__` with its pooled-statistics helpers.

Python dictionaries are embedded as association lists with last-wins
insertion (`dinsert`) and first-match lookup (`dlookup`); a dict
comprehension over a list of keys is `buildMapM`.  Numbers are `ℚ`
(exact arithmetic), counts are `Option ℤ`, and fallible operations
return `Except AggrError`.
-/

/-- Error kinds of the store: `countUndefined` embeds the
`RuntimeError("Count is None.")` raised by `Aggregates.count`, and
`keyNotFound` embeds the `KeyError` of a Python dict lookup miss. -/
inductive AggrError where
  | countUndefined
  | keyNotFound
deriving DecidableEq

/-- Lookup in an association list (Python dict read). -/
def dlookup {α β : Type} [DecidableEq α] : List (α × β) → α → Option β
  | [], _ => none
  | (k1, v) :: rest, k => if k = k1 then some v else dlookup rest k

/-- Insert into an association list, replacing the value in place when the
key is present (Python dict write semantics). -/
def dinsert {α β : Type} [DecidableEq α] (k : α) (v : β) : List (α × β) → List (α × β)
  | [] => [(k, v)]
  | (k1, v1) :: rest =>
    if k = k1 then (k, v) :: rest else (k1, v1) :: dinsert k v rest

/-- Worker of `buildMapM`: fold the keys left to right into an accumulator. -/
def buildGo {α β ε : Type} [DecidableEq α] (f : α → Except ε β) :
    List α → List (α × β) → Except ε (List (α × β))
  | [], acc => .ok acc
  | k :: ks, acc =>
    match f k with
    | .error e => .error e
    | .ok v => buildGo f ks (dinsert k v acc)

/-- Python dict comprehension over a list of keys: evaluate `f` on each key
in order, propagating the first error, later keys overwriting earlier
ones. -/
def buildMapM {α β ε : Type} [DecidableEq α] (keys : List α) (f : α → Except ε β) :
    Except ε (List (α × β)) :=
  buildGo f keys []

/-- Lexicographic strict comparison of character lists by code point
(the order Python uses to compare strings). -/
def listLtb : List Char → List Char → Bool
  | [], [] => false
  | [], _ :: _ => true
  | _ :: _, [] => false
  | c :: cs, d :: ds =>
    if c.toNat < d.toNat then true
    else if d.toNat < c.toNat then false
    else listLtb cs ds

/-- Lexicographic strict comparison of strings by code point. -/
def strLtb (a b : String) : Bool := listLtb a.data b.data

/-- Modelled from the spec: `tea_tasting._utils.sorted_tuple` is not in the
sources; the spec describes covariance keys as an unordered pair "stored in
a canonical order (e.g., lexicographically sorted)", so the pair is sorted
lexicographically (code-point order, as Python compares strings). -/
def sorted_tuple (left right : String) : String × String :=
  if strLtb right left then (right, left) else (left, right)

/-- Deduplicate a list, keeping the first occurrence of each element
(embeds the deduplication performed by Python set construction, where the
iteration order is unspecified; only the underlying set matters). -/
def dedupF {α : Type} [DecidableEq α] : List α → List α
  | [] => []
  | x :: xs => x :: (dedupF xs).filter (fun y => y ≠ x)

/-- The aggregated-statistics store.  Fields mirror `Aggregates._count`,
`_mean`, `_var`, `_cov`. -/
structure Aggregates where
  _count : Option ℤ
  _mean : List (String × ℚ)
  _var : List (String × ℚ)
  _cov : List ((String × String) × ℚ)
deriving DecidableEq

/-- Canonicalisation of the covariance dict performed by
`Aggregates.__init__`: rebuild the dict with each key passed through
`sorted_tuple`, later entries overwriting earlier ones. -/
def canonCov : List ((String × String) × ℚ) → List ((String × String) × ℚ) →
    List ((String × String) × ℚ)
  | [], acc => acc
  | (k, v) :: rest, acc => canonCov rest (dinsert (sorted_tuple k.1 k.2) v acc)

/-- `Aggregates.__init__`: store count, mean and var as given; rebuild the
covariance dict with canonically sorted keys. -/
def Aggregates.init (count : Option ℤ) (mean var : List (String × ℚ))
    (cov : List ((String × String) × ℚ)) : Aggregates :=
  ⟨count, mean, var, canonCov cov []⟩

/-- `Aggregates.count`: raises when the count was not defined at init. -/
def Aggregates.count (S : Aggregates) : Except AggrError ℤ :=
  match S._count with
  | none => .error .countUndefined
  | some n => .ok n

/-- `Aggregates.mean`: `None` denotes the constant 1; otherwise dict
lookup. -/
def Aggregates.mean (S : Aggregates) (key : Option String) : Except AggrError ℚ :=
  match key with
  | none => .ok 1
  | some k =>
    match dlookup S._mean k with
    | none => .error .keyNotFound
    | some v => .ok v

/-- `Aggregates.var`: `None` denotes the constant 0; otherwise dict
lookup. -/
def Aggregates.var (S : Aggregates) (key : Option String) : Except AggrError ℚ :=
  match key with
  | none => .ok 0
  | some k =>
    match dlookup S._var k with
    | none => .error .keyNotFound
    | some v => .ok v

/-- `Aggregates.cov`: any `None` argument gives 0; otherwise lookup of the
canonically sorted pair. -/
def Aggregates.cov (S : Aggregates) (left right : Option String) : Except AggrError ℚ :=
  match left, right with
  | some l, some r =>
    match dlookup S._cov (sorted_tuple l r) with
    | none => .error .keyNotFound
    | some v => .ok v
  | _, _ => .ok 0

/-- `Aggregates.ratio_var`: Delta-method variance of a ratio of two
variables. -/
def Aggregates.ratio_var (S : Aggregates) (numer denom : Option String) :
    Except AggrError ℚ := do
  let denom_mean ← S.mean denom
  let denom_mean_sq := denom_mean * denom_mean
  let var_numer ← S.var numer
  let cov_nd ← S.cov numer denom
  let numer_mean ← S.mean numer
  let var_denom ← S.var denom
  pure ((var_numer
    - 2 * cov_nd * numer_mean / denom_mean
    + var_denom * numer_mean * numer_mean / denom_mean_sq) / denom_mean_sq)

/-- `_validate_aggr_cols`: force `has_count` when any variance or
covariance is requested, widen the mean set with every variable referenced
by a variance or covariance request, deduplicate, and canonicalise the
covariance pairs. -/
def _validate_aggr_cols (has_count : Bool) (mean_cols var_cols : List String)
    (cov_cols : List (String × String)) :
    Bool × List String × List String × List (String × String) :=
  let has_count := has_count || !var_cols.isEmpty || !cov_cols.isEmpty
  let mean_cols := dedupF (mean_cols ++ var_cols ++ cov_cols.flatMap (fun p => [p.1, p.2]))
  let var_cols := dedupF var_cols
  let cov_cols := dedupF (cov_cols.map (fun p => sorted_tuple p.1 p.2))
  (has_count, mean_cols, var_cols, cov_cols)

/-- `Aggregates.filter`: normalise the request, then build a fresh store
with the requested values copied from the source (the count read fails
with `countUndefined`, a map miss with `keyNotFound`). -/
def Aggregates.filter (S : Aggregates) (has_count : Bool) (mean_cols var_cols : List String)
    (cov_cols : List (String × String)) : Except AggrError Aggregates := do
  let n := _validate_aggr_cols has_count mean_cols var_cols cov_cols
  let count ← if n.1 then do
      let c ← Aggregates.count S
      pure (some c)
    else pure (none : Option ℤ)
  let mean ← buildMapM n.2.1 (fun col => S.mean (some col))
  let var ← buildMapM n.2.2.1 (fun col => S.var (some col))
  let cov ← buildMapM n.2.2.2 (fun cols => S.cov (some cols.1) (some cols.2))
  pure (Aggregates.init count mean var cov)

/-- `_add_mean`: weighted pooling of two sample means. -/
def _add_mean (left right : Aggregates) (col : String) : Except AggrError ℚ := do
  let ln ← Aggregates.count left
  let lm ← left.mean (some col)
  let rn ← Aggregates.count right
  let rm ← right.mean (some col)
  let sum_ := (ln : ℚ) * lm + (rn : ℚ) * rm
  let count := ln + rn
  pure (sum_ / (count : ℚ))

/-- `_add_var`: pooled (parallel) sample variance of the concatenation. -/
def _add_var (left right : Aggregates) (col : String) : Except AggrError ℚ := do
  let left_n ← Aggregates.count left
  let right_n ← Aggregates.count right
  let total_n := left_n + right_n
  let lm ← left.mean (some col)
  let rm ← right.mean (some col)
  let diff_of_means := lm - rm
  let lv ← left.var (some col)
  let rv ← right.var (some col)
  pure ((lv * ((left_n : ℚ) - 1)
    + rv * ((right_n : ℚ) - 1)
    + diff_of_means * diff_of_means * (left_n : ℚ) * (right_n : ℚ) / (total_n : ℚ))
    / ((total_n : ℚ) - 1))

/-- `_add_cov`: pooled sample covariance of the concatenation. -/
def _add_cov (left right : Aggregates) (cols : String × String) : Except AggrError ℚ := do
  let left_n ← Aggregates.count left
  let right_n ← Aggregates.count right
  let total_n := left_n + right_n
  let lm0 ← left.mean (some cols.1)
  let rm0 ← right.mean (some cols.1)
  let diff_of_means0 := lm0 - rm0
  let lm1 ← left.mean (some cols.2)
  let rm1 ← right.mean (some cols.2)
  let diff_of_means1 := lm1 - rm1
  let lc ← left.cov (some cols.1) (some cols.2)
  let rc ← right.cov (some cols.1) (some cols.2)
  pure ((lc * ((left_n : ℚ) - 1)
    + rc * ((right_n : ℚ) - 1)
    + diff_of_means0 * diff_of_means1 * (left_n : ℚ) * (right_n : ℚ) / (total_n : ℚ))
    / ((total_n : ℚ) - 1))

/-- `Aggregates.__add__`: statistics of the concatenation of two samples.
The count is `n1 + n2` guarded only by `self._count is not None`; the
mean/var/cov dicts are rebuilt over the keys of the left store. -/
def Aggregates.add (self other : Aggregates) : Except AggrError Aggregates := do
  let count ← match self._count with
    | some _ => do
        let a ← Aggregates.count self
        let b ← Aggregates.count other
        pure (some (a + b))
    | none => pure (none : Option ℤ)
  let mean ← buildMapM (self._mean.map Prod.fst) (fun col => _add_mean self other col)
  let var ← buildMapM (self._var.map Prod.fst) (fun col => _add_var self other col)
  let cov ← buildMapM (self._cov.map Prod.fst) (fun cols => _add_cov self other cols)
  pure (Aggregates.init count mean var cov)

/-- Spec-side definition for the refinement claim about merge: the direct
sample mean of a list of observations. -/
def sampleMean (xs : List ℚ) : ℚ := xs.sum / (xs.length : ℚ)

/-- Spec-side definition for the refinement claim about merge: the direct
Bessel-corrected sample variance of a list of observations. -/
def sampleVar (xs : List ℚ) : ℚ :=
  ((xs.map (fun x => (x - sampleMean xs) * (x - sampleMean xs))).sum)
    / ((xs.length : ℚ) - 1)

/-! ### Basic lemmas about the dict embedding -/

@[simp]
theorem ok_bind {α β ε : Type} (a : α) (f : α → Except ε β) :
    (Except.ok a : Except ε α) >>= f = f a := rfl

@[simp]
theorem error_bind {α β ε : Type} (e : ε) (f : α → Except ε β) :
    (Except.error e : Except ε α) >>= f = Except.error e := rfl

@[simp]
theorem pure_eq_ok {α ε : Type} (a : α) : (pure a : Except ε α) = Except.ok a := rfl

theorem dlookup_dinsert_self {α β : Type} [DecidableEq α] (k : α) (v : β)
    (m : List (α × β)) : dlookup (dinsert k v m) k = some v := by
  induction m with
  | nil => simp [dinsert, dlookup]
  | cons e rest ih =>
    by_cases h : k = e.1
    · simp [dinsert, dlookup, h]
    · simp [dinsert, dlookup, h, ih]

theorem dlookup_dinsert_ne {α β : Type} [DecidableEq α] {k k1 : α} (v : β)
    (m : List (α × β)) (h : k1 ≠ k) :
    dlookup (dinsert k v m) k1 = dlookup m k1 := by
  induction m with
  | nil => simp [dinsert, dlookup, h]
  | cons e rest ih =>
    by_cases hk : k = e.1
    · subst hk
      simp [dinsert, dlookup, h]
    · by_cases hk1 : k1 = e.1
      · simp [dinsert, dlookup, hk, hk1]
      · simp [dinsert, dlookup, hk, hk1, ih]

theorem mem_keys_dinsert {α β : Type} [DecidableEq α] {k k1 : α} (v : β)
    (m : List (α × β)) :
    k1 ∈ (dinsert k v m).map Prod.fst ↔ k1 = k ∨ k1 ∈ m.map Prod.fst := by
  induction m with
  | nil => simp [dinsert]
  | cons e rest ih =>
    by_cases hk : k = e.1
    · subst hk
      simp [dinsert]
    · simp only [dinsert, if_neg hk, List.map_cons, List.mem_cons, ih]
      tauto

theorem nodup_keys_dinsert {α β : Type} [DecidableEq α] (k : α) (v : β)
    (m : List (α × β)) (h : (m.map Prod.fst).Nodup) :
    ((dinsert k v m).map Prod.fst).Nodup := by
  induction m with
  | nil => simp [dinsert]
  | cons e rest ih =>
    by_cases hk : k = e.1
    · subst hk
      simpa [dinsert] using h
    · simp only [List.map_cons, List.nodup_cons] at h
      simp only [dinsert, if_neg hk, List.map_cons, List.nodup_cons]
      refine ⟨fun hmem => ?_, ih h.2⟩
      rcases (mem_keys_dinsert v rest).mp hmem with h1 | h1
      · exact hk h1.symm
      · exact h.1 h1

theorem dinsert_eq_append {α β : Type} [DecidableEq α] (k : α) (v : β)
    (m : List (α × β)) (h : k ∉ m.map Prod.fst) :
    dinsert k v m = m ++ [(k, v)] := by
  induction m with
  | nil => simp [dinsert]
  | cons e rest ih =>
    simp only [List.map_cons, List.mem_cons] at h
    push_neg at h
    simp [dinsert, h.1, ih h.2]

theorem dlookup_eq_none_of_not_mem {α β : Type} [DecidableEq α] {k : α}
    {m : List (α × β)} (h : k ∉ m.map Prod.fst) : dlookup m k = none := by
  induction m with
  | nil => rfl
  | cons e rest ih =>
    simp only [List.map_cons, List.mem_cons] at h
    push_neg at h
    simp [dlookup, h.1, ih h.2]

theorem mem_of_dlookup_some {α β : Type} [DecidableEq α] {k : α} {v : β}
    {m : List (α × β)} (h : dlookup m k = some v) : k ∈ m.map Prod.fst := by
  induction m with
  | nil => simp [dlookup] at h
  | cons e rest ih =>
    by_cases hk : k = e.1
    · simp [hk]
    · simp only [dlookup, if_neg hk] at h
      simp [ih h]

/-! ### Lemmas about the dict-comprehension fold -/

theorem buildGo_ok_spec {α β ε : Type} [DecidableEq α] {f : α → Except ε β}
    {ks : List α} {acc m : List (α × β)} (h : buildGo f ks acc = .ok m) :
    (∀ k ∈ ks, ∃ v, f k = .ok v ∧ dlookup m k = some v) ∧
    (∀ k, k ∉ ks → dlookup m k = dlookup acc k) := by
  induction ks generalizing acc with
  | nil =>
    simp only [buildGo, Except.ok.injEq] at h
    subst h
    exact ⟨by simp, fun k _ => rfl⟩
  | cons k0 ks ih =>
    simp only [buildGo] at h
    cases hf : f k0 with
    | error e => rw [hf] at h; exact absurd h (by simp)
    | ok v0 =>
      rw [hf] at h
      obtain ⟨H1, H2⟩ := ih h
      constructor
      · intro k hk
        rcases List.mem_cons.mp hk with rfl | hk
        · by_cases hmem : k ∈ ks
          · exact H1 k hmem
          · refine ⟨v0, hf, ?_⟩
            rw [H2 k hmem, dlookup_dinsert_self]
        · exact H1 k hk
      · intro k hk
        simp only [List.mem_cons, not_or] at hk
        rw [H2 k hk.2, dlookup_dinsert_ne _ _ hk.1]

theorem buildGo_ok_keys {α β ε : Type} [DecidableEq α] {f : α → Except ε β}
    {ks : List α} {acc m : List (α × β)} (h : buildGo f ks acc = .ok m) :
    ∀ k, k ∈ m.map Prod.fst ↔ k ∈ ks ∨ k ∈ acc.map Prod.fst := by
  induction ks generalizing acc with
  | nil =>
    simp only [buildGo, Except.ok.injEq] at h
    subst h
    simp
  | cons k0 ks ih =>
    simp only [buildGo] at h
    cases hf : f k0 with
    | error e => rw [hf] at h; exact absurd h (by simp)
    | ok v0 =>
      rw [hf] at h
      intro k
      rw [ih h k, mem_keys_dinsert]
      simp only [List.mem_cons]
      tauto

theorem buildGo_ok_nodup {α β ε : Type} [DecidableEq α] {f : α → Except ε β}
    {ks : List α} {acc m : List (α × β)} (h : buildGo f ks acc = .ok m)
    (hacc : (acc.map Prod.fst).Nodup) : (m.map Prod.fst).Nodup := by
  induction ks generalizing acc with
  | nil =>
    simp only [buildGo, Except.ok.injEq] at h
    subst h
    exact hacc
  | cons k0 ks ih =>
    simp only [buildGo] at h
    cases hf : f k0 with
    | error e => rw [hf] at h; exact absurd h (by simp)
    | ok v0 =>
      rw [hf] at h
      exact ih h (nodup_keys_dinsert _ _ _ hacc)

theorem buildGo_ok_of_forall {α β ε : Type} [DecidableEq α] {f : α → Except ε β}
    {ks : List α} (acc : List (α × β)) (h : ∀ k ∈ ks, ∃ v, f k = .ok v) :
    ∃ m, buildGo f ks acc = .ok m := by
  induction ks generalizing acc with
  | nil => exact ⟨acc, rfl⟩
  | cons k0 ks ih =>
    obtain ⟨v0, hv0⟩ := h k0 (List.mem_cons_self _ _)
    simp only [buildGo, hv0]
    exact ih _ fun k hk => h k (List.mem_cons_of_mem _ hk)

theorem buildGo_error {α β ε : Type} [DecidableEq α] {f : α → Except ε β}
    {ks : List α} {acc : List (α × β)} {e : ε} (h : buildGo f ks acc = .error e) :
    ∃ k ∈ ks, f k = .error e := by
  induction ks generalizing acc with
  | nil => simp [buildGo] at h
  | cons k0 ks ih =>
    simp only [buildGo] at h
    cases hf : f k0 with
    | error e0 =>
      rw [hf] at h
      cases h
      exact ⟨k0, List.mem_cons_self _ _, hf⟩
    | ok v0 =>
      rw [hf] at h
      obtain ⟨k, hk, hfk⟩ := ih h
      exact ⟨k, List.mem_cons_of_mem _ hk, hfk⟩

theorem buildGo_congr {α β ε : Type} [DecidableEq α] {f g : α → Except ε β}
    {ks : List α} (acc : List (α × β)) (h : ∀ k ∈ ks, f k = g k) :
    buildGo f ks acc = buildGo g ks acc := by
  induction ks generalizing acc with
  | nil => rfl
  | cons k0 ks ih =>
    simp only [buildGo, h k0 (List.mem_cons_self _ _)]
    cases g k0 with
    | error e => rfl
    | ok v => exact ih _ fun k hk => h k (List.mem_cons_of_mem _ hk)

/-! ### Lemmas about `sorted_tuple`, `dedupF` and `canonCov` -/

theorem listLtb_asymm : ∀ {x y : List Char}, listLtb x y = true → listLtb y x = false := by
  intro x
  induction x with
  | nil =>
    intro y h
    cases y <;> simp [listLtb] at h ⊢
  | cons c cs ih =>
    intro y h
    cases y with
    | nil => simp [listLtb] at h
    | cons d ds =>
      simp only [listLtb] at h ⊢
      by_cases h1 : c.toNat < d.toNat
      · have h2 : ¬ d.toNat < c.toNat := by omega
        simp [h1, h2]
      · by_cases h2 : d.toNat < c.toNat
        · simp [h1, h2] at h
        · simp only [h1, h2, if_false] at h ⊢
          exact ih h

theorem listLtb_conn : ∀ {x y : List Char},
    listLtb x y = false → listLtb y x = false → x = y := by
  intro x
  induction x with
  | nil =>
    intro y h1 h2
    cases y with
    | nil => rfl
    | cons d ds => simp [listLtb] at h1
  | cons c cs ih =>
    intro y h1 h2
    cases y with
    | nil => simp [listLtb] at h2
    | cons d ds =>
      simp only [listLtb] at h1 h2
      by_cases hcd : c.toNat < d.toNat
      · simp [hcd] at h1
      · by_cases hdc : d.toNat < c.toNat
        · simp [hdc, hcd] at h2
        · have hval : c.toNat = d.toNat := by omega
          have hc : c = d := by
            unfold Char.toNat at hval
            exact Char.eq_of_val_eq (UInt32.ext hval)
          simp only [hcd, hdc, if_false] at h1 h2
          rw [hc, ih h1 h2]

theorem strLtb_asymm {a b : String} (h : strLtb a b = true) : strLtb b a = false :=
  listLtb_asymm h

theorem strLtb_conn {a b : String} (h1 : strLtb a b = false)
    (h2 : strLtb b a = false) : a = b := by
  exact String.ext (listLtb_conn h1 h2)

theorem sorted_tuple_comm (a b : String) : sorted_tuple a b = sorted_tuple b a := by
  unfold sorted_tuple
  by_cases h1 : strLtb b a = true
  · simp [h1, strLtb_asymm h1]
  · have h1f : strLtb b a = false := by simpa using h1
    by_cases h2 : strLtb a b = true
    · simp [h1f, h2]
    · have h2f : strLtb a b = false := by simpa using h2
      have hab : a = b := strLtb_conn h2f h1f
      subst hab
      simp

theorem sorted_tuple_canon (a b : String) :
    strLtb (sorted_tuple a b).2 (sorted_tuple a b).1 = false := by
  unfold sorted_tuple
  by_cases h : strLtb b a = true
  · simp [h, strLtb_asymm h]
  · have hf : strLtb b a = false := by simpa using h
    simp [hf]

theorem sorted_tuple_idem (a b : String) :
    sorted_tuple (sorted_tuple a b).1 (sorted_tuple a b).2 = sorted_tuple a b := by
  have h := sorted_tuple_canon a b
  rcases hp : sorted_tuple a b with ⟨u, v⟩
  rw [hp] at h
  unfold sorted_tuple
  simp only at h
  simp [h]

theorem mem_dedupF {α : Type} [DecidableEq α] {a : α} {l : List α} :
    a ∈ dedupF l ↔ a ∈ l := by
  induction l with
  | nil => simp [dedupF]
  | cons x xs ih =>
    by_cases hax : a = x
    · subst hax
      simp [dedupF]
    · simp only [dedupF, List.mem_cons, List.mem_filter, ih, hax, false_or,
        decide_eq_true_eq, ne_eq, and_true]
      tauto

theorem canonCov_keys_canonical (l acc : List ((String × String) × ℚ))
    (hacc : (∀ p ∈ acc.map Prod.fst, sorted_tuple p.1 p.2 = p) ∧
      (acc.map Prod.fst).Nodup) :
    (∀ p ∈ (canonCov l acc).map Prod.fst, sorted_tuple p.1 p.2 = p) ∧
      ((canonCov l acc).map Prod.fst).Nodup := by
  induction l generalizing acc with
  | nil => exact hacc
  | cons e rest ih =>
    refine ih _ ⟨?_, nodup_keys_dinsert _ _ _ hacc.2⟩
    intro p hp
    rcases (mem_keys_dinsert _ _).mp hp with rfl | hp
    · exact sorted_tuple_idem _ _
    · exact hacc.1 p hp

theorem canonCov_eq_append (l acc : List ((String × String) × ℚ))
    (hcanon : ∀ p ∈ l.map Prod.fst, sorted_tuple p.1 p.2 = p)
    (hnodup : (l.map Prod.fst).Nodup)
    (hdisj : ∀ p ∈ l.map Prod.fst, p ∉ acc.map Prod.fst) :
    canonCov l acc = acc ++ l := by
  induction l generalizing acc with
  | nil => simp [canonCov]
  | cons e rest ih =>
    obtain ⟨k, v⟩ := e
    simp only [List.map_cons, List.nodup_cons] at hnodup
    have hk : sorted_tuple k.1 k.2 = k :=
      hcanon k (by simp)
    have hkacc : k ∉ acc.map Prod.fst := hdisj k (by simp)
    simp only [canonCov, hk, dinsert_eq_append _ _ _ hkacc]
    rw [ih (acc ++ [(k, v)])]
    · simp
    · intro p hp
      exact hcanon p (by simp [hp])
    · exact hnodup.2
    · intro p hp
      simp only [List.map_append, List.mem_append, List.map_cons, List.map_nil,
        List.mem_singleton]
      push_neg
      constructor
      · exact hdisj p (by simp [hp])
      · intro hpk
        exact hnodup.1 (hpk ▸ hp)

theorem canonCov_id (l : List ((String × String) × ℚ))
    (hcanon : ∀ p ∈ l.map Prod.fst, sorted_tuple p.1 p.2 = p)
    (hnodup : (l.map Prod.fst).Nodup) : canonCov l [] = l := by
  simpa using canonCov_eq_append l [] hcanon hnodup (by simp)

/-! ### Algebra of sample means and variances -/

theorem sum_sq_about (xs : List ℚ) (c : ℚ) :
    (xs.map (fun x => (x - c) * (x - c))).sum
      = (xs.map (fun x => x * x)).sum - 2 * c * xs.sum + (xs.length : ℚ) * (c * c) := by
  induction xs with
  | nil => simp
  | cons x xs ih =>
    simp only [List.map_cons, List.sum_cons, List.length_cons, ih]
    push_cast
    ring

theorem sampleVar_eq (xs : List ℚ) (hn : (xs.length : ℚ) ≠ 0) :
    sampleVar xs
      = ((xs.map (fun x => x * x)).sum - xs.sum * xs.sum / (xs.length : ℚ))
        / ((xs.length : ℚ) - 1) := by
  unfold sampleVar sampleMean
  rw [sum_sq_about]
  congr 1
  field_simp
  ring

theorem pooled_variance_eq (xs ys : List ℚ) (h1 : 2 ≤ xs.length) (h2 : 2 ≤ ys.length) :
    (sampleVar xs * ((xs.length : ℚ) - 1) + sampleVar ys * ((ys.length : ℚ) - 1)
      + (sampleMean xs - sampleMean ys) * (sampleMean xs - sampleMean ys)
        * (xs.length : ℚ) * (ys.length : ℚ) / ((xs.length : ℚ) + (ys.length : ℚ)))
      / (((xs.length : ℚ) + (ys.length : ℚ)) - 1)
      = sampleVar (xs ++ ys) := by
  have h1q : (2 : ℚ) ≤ (xs.length : ℚ) := by exact_mod_cast h1
  have h2q : (2 : ℚ) ≤ (ys.length : ℚ) := by exact_mod_cast h2
  have hn1 : (xs.length : ℚ) ≠ 0 := by linarith
  have hn2 : (ys.length : ℚ) ≠ 0 := by linarith
  have hN : (xs.length : ℚ) + (ys.length : ℚ) ≠ 0 := by linarith
  have h11 : (xs.length : ℚ) - 1 ≠ 0 := by linarith
  have h21 : (ys.length : ℚ) - 1 ≠ 0 := by linarith
  have hN1 : (xs.length : ℚ) + (ys.length : ℚ) - 1 ≠ 0 := by linarith
  have hlen : ((xs ++ ys).length : ℚ) = (xs.length : ℚ) + (ys.length : ℚ) := by
    push_cast [List.length_append]
    ring
  have hNne : ((xs ++ ys).length : ℚ) ≠ 0 := by rw [hlen]; exact hN
  rw [sampleVar_eq xs hn1, sampleVar_eq ys hn2, sampleVar_eq (xs ++ ys) hNne]
  unfold sampleMean
  rw [List.map_append, List.sum_append, List.sum_append, hlen]
  field_simp
  ring

/-! ### Accessor inversion lemmas -/

theorem mean_ok_iff (S : Aggregates) (k : String) (v : ℚ) :
    S.mean (some k) = .ok v ↔ dlookup S._mean k = some v := by
  unfold Aggregates.mean
  cases h : dlookup S._mean k <;> simp [h]

theorem var_ok_iff (S : Aggregates) (k : String) (v : ℚ) :
    S.var (some k) = .ok v ↔ dlookup S._var k = some v := by
  unfold Aggregates.var
  cases h : dlookup S._var k <;> simp [h]

theorem cov_ok_iff (S : Aggregates) (l r : String) (v : ℚ) :
    S.cov (some l) (some r) = .ok v ↔ dlookup S._cov (sorted_tuple l r) = some v := by
  unfold Aggregates.cov
  cases h : dlookup S._cov (sorted_tuple l r) <;> simp [h]

theorem mean_error_iff (S : Aggregates) (k : String) (e : AggrError) :
    S.mean (some k) = .error e ↔ dlookup S._mean k = none ∧ e = .keyNotFound := by
  unfold Aggregates.mean
  cases h : dlookup S._mean k <;> simp [h, eq_comm]

theorem var_error_iff (S : Aggregates) (k : String) (e : AggrError) :
    S.var (some k) = .error e ↔ dlookup S._var k = none ∧ e = .keyNotFound := by
  unfold Aggregates.var
  cases h : dlookup S._var k <;> simp [h, eq_comm]

theorem cov_error_iff (S : Aggregates) (l r : String) (e : AggrError) :
    S.cov (some l) (some r) = .error e ↔
      dlookup S._cov (sorted_tuple l r) = none ∧ e = .keyNotFound := by
  unfold Aggregates.cov
  cases h : dlookup S._cov (sorted_tuple l r) <;> simp [h, eq_comm]

theorem buildMapM_lookup_opt {α β : Type} [DecidableEq α] {keys : List α}
    {f : α → Except AggrError β} {g : α → Option β} {m : List (α × β)}
    (hf : ∀ k (v : β), f k = .ok v ↔ g k = some v)
    (h : buildMapM keys f = .ok m) :
    ∀ k, dlookup m k = if k ∈ keys then g k else none := by
  have h0 : buildGo f keys [] = .ok m := h
  intro k
  by_cases hk : k ∈ keys
  · obtain ⟨v, hv, hlk⟩ := (buildGo_ok_spec h0).1 k hk
    rw [if_pos hk, hlk, (hf k v).mp hv]
  · rw [if_neg hk, (buildGo_ok_spec h0).2 k hk]
    rfl

/-! ### Claim theorems -/

/-- C6: covariance lookup is symmetric: for every store (however built,
with raw covariance keys in either order) and every pair of variable names,
`cov(a, b)` and `cov(b, a)` return the same result, because both look up
the same canonically sorted pair.  This implies the claimed statement for
every pair on which the lookup succeeds. -/
theorem c6_cov_symm (S : Aggregates) (a b : String) :
    S.cov (some a) (some b) = S.cov (some b) (some a) := by
  have h := sorted_tuple_comm a b
  simp only [Aggregates.cov, h]

/-- C7: the none-argument accessor conventions always succeed regardless of
the contents of the store: `mean(none) = 1`, `var(none) = 0`, and
`cov(x, none) = 0` without any lookup of `x`. -/
theorem c7_none_conventions (S : Aggregates) (x : String) :
    S.mean none = .ok 1 ∧ S.var none = .ok 0 ∧ S.cov (some x) none = .ok 0 :=
  ⟨rfl, rfl, rfl⟩

/-- C9: for every store and every variable whose variance and mean are
present, the Delta-method variance of the ratio with a `none` denominator
is exactly the plain variance: `ratio_var(v, none) = var(v)`. -/
theorem c9_ratio_var_none (S : Aggregates) (v : String) (vv mv : ℚ)
    (hv : dlookup S._var v = some vv) (hm : dlookup S._mean v = some mv) :
    S.ratio_var (some v) none = S.var (some v) := by
  unfold Aggregates.ratio_var
  simp [Aggregates.mean, Aggregates.var, Aggregates.cov, hv, hm]

/-- Witness for C9 at a concrete store. -/
theorem c9_ratio_var_none_witness :
    (Aggregates.init (some 10) [("x", 2)] [("x", 3)] []).ratio_var (some "x") none
      = (Aggregates.init (some 10) [("x", 2)] [("x", 3)] []).var (some "x") :=
  c9_ratio_var_none _ "x" 3 2 (by rfl) (by rfl)

/-- C2: for every store in which the numerator and denominator means and
variances and the covariance of the pair are present, `ratio_var` returns
exactly the Delta-method formula
`(var(numer) - 2 cov mean(numer)/mean(denom) + var(denom) mean(numer)^2/mean(denom)^2) / mean(denom)^2`. -/
theorem c2_ratio_var_formula (S : Aggregates) (numer denom : String)
    (mn md vn vd c : ℚ)
    (hmn : dlookup S._mean numer = some mn) (hmd : dlookup S._mean denom = some md)
    (hvn : dlookup S._var numer = some vn) (hvd : dlookup S._var denom = some vd)
    (hc : dlookup S._cov (sorted_tuple numer denom) = some c) :
    S.ratio_var (some numer) (some denom)
      = .ok ((vn - 2 * c * mn / md + vd * mn ^ 2 / md ^ 2) / md ^ 2) := by
  unfold Aggregates.ratio_var
  simp only [Aggregates.mean, Aggregates.var, Aggregates.cov, hmn, hmd, hvn, hvd, hc,
    ok_bind, pure_eq_ok, Except.ok.injEq]
  ring

/-- Witness for C2: the concrete scenario of the claim, with
`mean = {x: 2, y: 4}`, `var = {x: 1, y: 2}`, `cov = {(x,y): 1/2}`,
`count = 10`; `ratio_var("x", "y") = 1/16 = 0.0625`. -/
theorem c2_ratio_var_formula_witness :
    (Aggregates.init (some 10) [("x", 2), ("y", 4)] [("x", 1), ("y", 2)]
        [(("x", "y"), 1/2)]).ratio_var (some "x") (some "y") = .ok (1/16) := by
  have h := c2_ratio_var_formula
    (Aggregates.init (some 10) [("x", 2), ("y", 4)] [("x", 1), ("y", 2)]
      [(("x", "y"), 1/2)]) "x" "y" 2 4 1 2 (1/2)
    (by rfl) (by rfl) (by rfl) (by rfl) (by rfl)
  rw [h]
  norm_num

/-! ### Inversion of the merge operator -/

theorem add_ok_parts {a b R : Aggregates} (h : a.add b = .ok R) :
    ∃ cnt mL vL cL,
      R = Aggregates.init cnt mL vL cL ∧
      buildMapM (a._mean.map Prod.fst) (fun col => _add_mean a b col) = .ok mL ∧
      buildMapM (a._var.map Prod.fst) (fun col => _add_var a b col) = .ok vL ∧
      buildMapM (a._cov.map Prod.fst) (fun cols => _add_cov a b cols) = .ok cL ∧
      ((a._count = none ∧ cnt = none) ∨
        ∃ n1 n2, a._count = some n1 ∧ b._count = some n2 ∧ cnt = some (n1 + n2)) := by
  unfold Aggregates.add at h
  cases hca : a._count with
  | none =>
    rw [hca] at h
    simp only [pure_eq_ok, ok_bind] at h
    cases hm : buildMapM (a._mean.map Prod.fst) (fun col => _add_mean a b col) with
    | error e => rw [hm] at h; simp at h
    | ok mL =>
      rw [hm] at h
      simp only [ok_bind] at h
      cases hv : buildMapM (a._var.map Prod.fst) (fun col => _add_var a b col) with
      | error e => rw [hv] at h; simp at h
      | ok vL =>
        rw [hv] at h
        simp only [ok_bind] at h
        cases hc : buildMapM (a._cov.map Prod.fst) (fun cols => _add_cov a b cols) with
        | error e => rw [hc] at h; simp at h
        | ok cL =>
          rw [hc] at h
          simp only [ok_bind, pure_eq_ok, Except.ok.injEq] at h
          exact ⟨none, mL, vL, cL, h.symm, rfl, rfl, rfl, Or.inl ⟨rfl, rfl⟩⟩
  | some n1 =>
    rw [hca] at h
    simp only [Aggregates.count, hca, ok_bind] at h
    cases hcb : b._count with
    | none =>
      rw [hcb] at h
      simp at h
    | some n2 =>
      rw [hcb] at h
      simp only [pure_eq_ok, ok_bind] at h
      cases hm : buildMapM (a._mean.map Prod.fst) (fun col => _add_mean a b col) with
      | error e => rw [hm] at h; simp at h
      | ok mL =>
        rw [hm] at h
        simp only [ok_bind] at h
        cases hv : buildMapM (a._var.map Prod.fst) (fun col => _add_var a b col) with
        | error e => rw [hv] at h; simp at h
        | ok vL =>
          rw [hv] at h
          simp only [ok_bind] at h
          cases hc : buildMapM (a._cov.map Prod.fst) (fun cols => _add_cov a b cols) with
          | error e => rw [hc] at h; simp at h
          | ok cL =>
            rw [hc] at h
            simp only [ok_bind, pure_eq_ok, Except.ok.injEq] at h
            exact ⟨some (n1 + n2), mL, vL, cL, h.symm, rfl, rfl, rfl,
              Or.inr ⟨n1, n2, rfl, rfl, rfl⟩⟩

/-- C3 counterexample: the claim says the merged count is omitted, with no
error raised, whenever either input has no count.  But `__add__` guards the
count expression only on `self._count`; with a left store that has a count
and a right store without one, `other.count()` raises.  Here the merge of
two stores with empty statistic maps fails with `countUndefined` instead of
returning a store with an omitted count. -/
theorem c3_add_count_counterexample :
    (⟨some 2, [], [], []⟩ : Aggregates).add ⟨none, [], [], []⟩
      = Except.error AggrError.countUndefined := rfl

/-- C3 amended: when both inputs have a defined count, a successful merge
has count `n1 + n2`; when the left input has no count, a successful merge
has no count (no error from the count expression); but when the left input
has a count and the right has none, the merge raises `countUndefined`
instead of omitting the count. -/
theorem c3_add_count_amended (a b : Aggregates) :
    (∀ n1 n2 R, a._count = some n1 → b._count = some n2 → a.add b = Except.ok R →
      R._count = some (n1 + n2)) ∧
    (∀ R, a._count = none → a.add b = Except.ok R → R._count = none) ∧
    (∀ n1, a._count = some n1 → b._count = none →
      a.add b = Except.error AggrError.countUndefined) := by
  refine ⟨?_, ?_, ?_⟩
  · intro n1 n2 R h1 h2 hadd
    obtain ⟨cnt, mL, vL, cL, hR, _, _, _, hcnt⟩ := add_ok_parts hadd
    rcases hcnt with ⟨hnone, _⟩ | ⟨m1, m2, hm1, hm2, hcnt⟩
    · rw [h1] at hnone; cases hnone
    · rw [h1] at hm1
      rw [h2] at hm2
      cases hm1
      cases hm2
      rw [hR, hcnt]
      rfl
  · intro R h1 hadd
    obtain ⟨cnt, mL, vL, cL, hR, _, _, _, hcnt⟩ := add_ok_parts hadd
    rcases hcnt with ⟨_, hnone⟩ | ⟨m1, m2, hm1, _, _⟩
    · rw [hR, hnone]
      rfl
    · rw [h1] at hm1; cases hm1
  · intro n1 h1 h2
    unfold Aggregates.add
    rw [h1]
    simp only [Aggregates.count, h1, h2, ok_bind, error_bind]

/-- Witness for C3 amended at concrete stores. -/
theorem c3_add_count_amended_witness :
    ((⟨some 2, [], [], []⟩ : Aggregates)._count = some 2 ∧
      (⟨some 3, [], [], []⟩ : Aggregates)._count = some 3 ∧
      (⟨some 2, [], [], []⟩ : Aggregates).add ⟨some 3, [], [], []⟩
        = Except.ok ⟨some 5, [], [], []⟩ ∧
      (⟨some 5, [], [], []⟩ : Aggregates)._count = some (2 + 3)) ∧
    ((⟨none, [], [], []⟩ : Aggregates).add ⟨some 3, [], [], []⟩
        = Except.ok ⟨none, [], [], []⟩ ∧
      (⟨none, [], [], []⟩ : Aggregates)._count = none) ∧
    (⟨some 2, [], [], []⟩ : Aggregates).add ⟨none, [], [], []⟩
        = Except.error AggrError.countUndefined := by
  refine ⟨⟨rfl, rfl, rfl, ?_⟩, ⟨rfl, ?_⟩, ?_⟩
  · exact (c3_add_count_amended ⟨some 2, [], [], []⟩ ⟨some 3, [], [], []⟩).1 2 3
      ⟨some 5, [], [], []⟩ rfl rfl rfl
  · exact (c3_add_count_amended ⟨none, [], [], []⟩ ⟨some 3, [], [], []⟩).2.1
      ⟨none, [], [], []⟩ rfl rfl
  · exact (c3_add_count_amended ⟨some 2, [], [], []⟩ ⟨none, [], [], []⟩).2.2 2 rfl rfl

/-- C1 counterexample: merging the stores of samples `[1,2,3]` (count 3,
mean 2, var 1) and `[4,5,6,7]` (count 4, mean 11/2, var 5/3) produces
count 7, mean 4 and variance 14/3 — the direct statistics of
`[1,2,3,4,5,6,7]` — not the claimed mean 27/7 and variance 80/21. -/
theorem c1_pooled_variance_counterexample :
    (Aggregates.init (some 3) [("x", 2)] [("x", 1)] []).add
        (Aggregates.init (some 4) [("x", 11/2)] [("x", 5/3)] [])
      = Except.ok (⟨some 7, [("x", 4)], [("x", 14/3)], []⟩ : Aggregates) ∧
    sampleMean [1, 2, 3, 4, 5, 6, 7] = 4 ∧
    sampleVar [1, 2, 3, 4, 5, 6, 7] = 14/3 ∧
    (4 : ℚ) ≠ 27/7 ∧ (14/3 : ℚ) ≠ 80/21 := by
  refine ⟨?_, by norm_num [sampleMean], by norm_num [sampleVar, sampleMean], by norm_num,
    by norm_num⟩
  norm_num [Aggregates.add, Aggregates.count, Aggregates.mean, Aggregates.var,
    Aggregates.init, buildMapM, buildGo, _add_mean, _add_var, dinsert, dlookup, canonCov]

/-- C1 amended: for stores holding the counts, means and Bessel-corrected
variances of two samples with at least two observations each, `_add_var`
(the variance step of `__add__`) returns exactly the pooled-variance
formula `[v1 (n1-1) + v2 (n2-1) + (m1-m2)^2 n1 n2 / N] / (N-1)`, which in
exact arithmetic equals the sample variance of the concatenated sample;
merging the stores of `[1,2,3]` and `[4,5,6,7]` produces count 7, mean 4
and variance 14/3, matching the direct statistics of `[1,2,3,4,5,6,7]`
(the claimed values 27/7 and 80/21 are not those statistics). -/
theorem c1_pooled_variance_amended (a b : Aggregates) (col : String)
    (xs ys : List ℚ) (n1 n2 : ℤ) (m1 m2 v1 v2 : ℚ)
    (hca : a._count = some n1) (hcb : b._count = some n2)
    (hma : dlookup a._mean col = some m1) (hmb : dlookup b._mean col = some m2)
    (hva : dlookup a._var col = some v1) (hvb : dlookup b._var col = some v2)
    (hn1 : n1 = (xs.length : ℤ)) (hn2 : n2 = (ys.length : ℤ))
    (hm1 : m1 = sampleMean xs) (hm2 : m2 = sampleMean ys)
    (hv1 : v1 = sampleVar xs) (hv2 : v2 = sampleVar ys)
    (h2a : 2 ≤ xs.length) (h2b : 2 ≤ ys.length) :
    _add_var a b col
      = .ok ((v1 * ((n1 : ℚ) - 1) + v2 * ((n2 : ℚ) - 1)
          + (m1 - m2) * (m1 - m2) * (n1 : ℚ) * (n2 : ℚ) / ((n1 : ℚ) + (n2 : ℚ)))
        / (((n1 : ℚ) + (n2 : ℚ)) - 1)) ∧
    (v1 * ((n1 : ℚ) - 1) + v2 * ((n2 : ℚ) - 1)
          + (m1 - m2) * (m1 - m2) * (n1 : ℚ) * (n2 : ℚ) / ((n1 : ℚ) + (n2 : ℚ)))
        / (((n1 : ℚ) + (n2 : ℚ)) - 1) = sampleVar (xs ++ ys) ∧
    (∀ R, a.add b = Except.ok R →
      dlookup R._var col
        = some ((v1 * ((n1 : ℚ) - 1) + v2 * ((n2 : ℚ) - 1)
            + (m1 - m2) * (m1 - m2) * (n1 : ℚ) * (n2 : ℚ) / ((n1 : ℚ) + (n2 : ℚ)))
          / (((n1 : ℚ) + (n2 : ℚ)) - 1))) := by
  have hval : _add_var a b col
      = .ok ((v1 * ((n1 : ℚ) - 1) + v2 * ((n2 : ℚ) - 1)
          + (m1 - m2) * (m1 - m2) * (n1 : ℚ) * (n2 : ℚ) / ((n1 : ℚ) + (n2 : ℚ)))
        / (((n1 : ℚ) + (n2 : ℚ)) - 1)) := by
    unfold _add_var
    simp only [Aggregates.count, hca, hcb, ok_bind, Aggregates.mean, hma, hmb,
      Aggregates.var, hva, hvb, pure_eq_ok, Except.ok.injEq]
    push_cast
    ring
  refine ⟨hval, ?_, ?_⟩
  · subst hm1 hm2 hv1 hv2 hn1 hn2
    push_cast
    exact pooled_variance_eq xs ys h2a h2b
  · intro R hadd
    obtain ⟨cnt, mL, vL, cL, hR, _, hv, _, _⟩ := add_ok_parts hadd
    have hmem : col ∈ a._var.map Prod.fst := mem_of_dlookup_some hva
    obtain ⟨w, hw, hlk⟩ := (buildGo_ok_spec hv).1 col hmem
    rw [hval] at hw
    cases hw
    rw [hR]
    exact hlk

/-- Witness for C1 amended: the concrete samples of the claim. -/
theorem c1_pooled_variance_amended_witness :
    _add_var (Aggregates.init (some 3) [("x", 2)] [("x", 1)] [])
        (Aggregates.init (some 4) [("x", 11/2)] [("x", 5/3)] []) "x"
      = Except.ok (sampleVar ([1, 2, 3] ++ [4, 5, 6, 7])) ∧
    sampleVar ([1, 2, 3] ++ [4, 5, 6, 7]) = 14/3 := by
  have h := c1_pooled_variance_amended
    (Aggregates.init (some 3) [("x", 2)] [("x", 1)] [])
    (Aggregates.init (some 4) [("x", 11/2)] [("x", 5/3)] []) "x"
    [1, 2, 3] [4, 5, 6, 7] 3 4 2 (11/2) 1 (5/3)
    rfl rfl rfl rfl rfl rfl
    (by norm_num) (by norm_num)
    (by norm_num [sampleMean]) (by norm_num [sampleMean])
    (by norm_num [sampleVar, sampleMean]) (by norm_num [sampleVar, sampleMean])
    (by norm_num) (by norm_num)
  refine ⟨h.2.1 ▸ h.1, by norm_num [sampleVar, sampleMean]⟩

/-! ### Characterization of `filter` -/

theorem filter_success_shape {S : Aggregates} {mc2 vc2 : List String}
    {cc2 : List (String × String)} {mL vL : List (String × ℚ)}
    {cL : List ((String × String) × ℚ)}
    (hcanon : ∀ p ∈ cc2, sorted_tuple p.1 p.2 = p)
    (hm : buildMapM mc2 (fun col => S.mean (some col)) = .ok mL)
    (hv : buildMapM vc2 (fun col => S.var (some col)) = .ok vL)
    (hc : buildMapM cc2 (fun cols => S.cov (some cols.1) (some cols.2)) = .ok cL)
    (cnt : Option ℤ) :
    (Aggregates.init cnt mL vL cL)._count = cnt ∧
    (∀ k, dlookup (Aggregates.init cnt mL vL cL)._mean k
      = if k ∈ mc2 then dlookup S._mean k else none) ∧
    (∀ k, dlookup (Aggregates.init cnt mL vL cL)._var k
      = if k ∈ vc2 then dlookup S._var k else none) ∧
    (∀ p, dlookup (Aggregates.init cnt mL vL cL)._cov p
      = if p ∈ cc2 then dlookup S._cov p else none) := by
  have hcov_id : (Aggregates.init cnt mL vL cL)._cov = cL := by
    show canonCov cL [] = cL
    refine canonCov_id cL ?_ (buildGo_ok_nodup hc (by simp))
    intro p hp
    have hmem := (buildGo_ok_keys hc p).mp hp
    simp only [List.map_nil, List.not_mem_nil, or_false] at hmem
    exact hcanon p hmem
  refine ⟨rfl, ?_, ?_, ?_⟩
  · exact buildMapM_lookup_opt (fun k v => mean_ok_iff S k v) hm
  · exact buildMapM_lookup_opt (fun k v => var_ok_iff S k v) hv
  · intro p
    rw [hcov_id]
    have hlk := buildMapM_lookup_opt
      (fun p v => cov_ok_iff S p.1 p.2 v) hc p
    rw [hlk]
    by_cases hp : p ∈ cc2
    · rw [if_pos hp, if_pos hp, hcanon p hp]
    · rw [if_neg hp, if_neg hp]

theorem buildMapM_mean_error {S : Aggregates} {keys : List String} {e : AggrError}
    (h : buildMapM keys (fun col => S.mean (some col)) = .error e) :
    e = .keyNotFound ∧ ∃ k, k ∈ keys ∧ dlookup S._mean k = none := by
  obtain ⟨k, hk, hfk⟩ := buildGo_error h
  obtain ⟨hnone, he⟩ := (mean_error_iff S k e).mp hfk
  exact ⟨he, k, hk, hnone⟩

theorem buildMapM_var_error {S : Aggregates} {keys : List String} {e : AggrError}
    (h : buildMapM keys (fun col => S.var (some col)) = .error e) :
    e = .keyNotFound ∧ ∃ k, k ∈ keys ∧ dlookup S._var k = none := by
  obtain ⟨k, hk, hfk⟩ := buildGo_error h
  obtain ⟨hnone, he⟩ := (var_error_iff S k e).mp hfk
  exact ⟨he, k, hk, hnone⟩

theorem buildMapM_cov_error {S : Aggregates} {keys : List (String × String)}
    {e : AggrError} (hcanon : ∀ p ∈ keys, sorted_tuple p.1 p.2 = p)
    (h : buildMapM keys (fun cols => S.cov (some cols.1) (some cols.2)) = .error e) :
    e = .keyNotFound ∧ ∃ p, p ∈ keys ∧ dlookup S._cov p = none := by
  obtain ⟨p, hp, hfp⟩ := buildGo_error h
  obtain ⟨hnone, he⟩ := (cov_error_iff S p.1 p.2 e).mp hfp
  rw [hcanon p hp] at hnone
  exact ⟨he, p, hp, hnone⟩

theorem validate_cov_canonical (has_count : Bool) (mean_cols var_cols : List String)
    (cov_cols : List (String × String)) :
    ∀ p ∈ (_validate_aggr_cols has_count mean_cols var_cols cov_cols).2.2.2,
      sorted_tuple p.1 p.2 = p := by
  intro p hp
  unfold _validate_aggr_cols at hp
  simp only at hp
  obtain ⟨q, _, hq⟩ := List.mem_map.mp (mem_dedupF.mp hp)
  rw [← hq]
  exact sorted_tuple_idem q.1 q.2

theorem filter_body_characterize (S : Aggregates) (mc2 vc2 : List String)
    (cc2 : List (String × String))
    (hcanon : ∀ p ∈ cc2, sorted_tuple p.1 p.2 = p) (cnt : Option ℤ) :
    (∃ R, (buildMapM mc2 (fun col => S.mean (some col)) >>= fun mean =>
        buildMapM vc2 (fun col => S.var (some col)) >>= fun var =>
        buildMapM cc2 (fun cols => S.cov (some cols.1) (some cols.2)) >>= fun cov =>
        pure (Aggregates.init cnt mean var cov)) = .ok R ∧
      R._count = cnt ∧
      (∀ k, dlookup R._mean k = if k ∈ mc2 then dlookup S._mean k else none) ∧
      (∀ k, dlookup R._var k = if k ∈ vc2 then dlookup S._var k else none) ∧
      (∀ p, dlookup R._cov p = if p ∈ cc2 then dlookup S._cov p else none)) ∨
    ((buildMapM mc2 (fun col => S.mean (some col)) >>= fun mean =>
        buildMapM vc2 (fun col => S.var (some col)) >>= fun var =>
        buildMapM cc2 (fun cols => S.cov (some cols.1) (some cols.2)) >>= fun cov =>
        pure (Aggregates.init cnt mean var cov)) = .error .keyNotFound ∧
      ((∃ k, k ∈ mc2 ∧ dlookup S._mean k = none) ∨
       (∃ k, k ∈ vc2 ∧ dlookup S._var k = none) ∨
       (∃ p, p ∈ cc2 ∧ dlookup S._cov p = none))) := by
  cases hm : buildMapM mc2 (fun col => S.mean (some col)) with
  | error e =>
    obtain ⟨he, k, hk, hnone⟩ := buildMapM_mean_error hm
    subst he
    right
    exact ⟨by simp, Or.inl ⟨k, hk, hnone⟩⟩
  | ok mL =>
    cases hv : buildMapM vc2 (fun col => S.var (some col)) with
    | error e =>
      obtain ⟨he, k, hk, hnone⟩ := buildMapM_var_error hv
      subst he
      right
      exact ⟨by simp, Or.inr (Or.inl ⟨k, hk, hnone⟩)⟩
    | ok vL =>
      cases hc : buildMapM cc2 (fun cols => S.cov (some cols.1) (some cols.2)) with
      | error e =>
        obtain ⟨he, p, hp, hnone⟩ := buildMapM_cov_error hcanon hc
        subst he
        right
        exact ⟨by simp, Or.inr (Or.inr ⟨p, hp, hnone⟩)⟩
      | ok cL =>
        left
        refine ⟨Aggregates.init cnt mL vL cL, by simp, ?_⟩
        exact filter_success_shape hcanon hm hv hc cnt

/-- C4 counterexample: the claim says every missing requested value —
including the count — surfaces as `KeyNotFound`.  But a store without a
count, filtered with a variance request (which forces `has_count`), fails
with the distinct `countUndefined` error (`RuntimeError` in the source),
not `KeyNotFound`. -/
theorem c4_filter_errors_counterexample :
    (⟨none, [("x", 2)], [("x", 1)], []⟩ : Aggregates).filter false [] ["x"] []
      = Except.error AggrError.countUndefined ∧
    AggrError.countUndefined ≠ AggrError.keyNotFound :=
  ⟨rfl, by simp⟩

/-- C4 amended: `filter` either returns a fresh store containing exactly
the normalised requested subset with values copied from the source, or
fails with `countUndefined` when the normalisation forces `has_count` and
the source has no count (the source raises `RuntimeError` here, not the
claimed `KeyNotFound`), or fails with `keyNotFound` when a requested
mean/variance/covariance value is missing; no other error kind occurs. -/
theorem c4_filter_characterization_amended (S : Aggregates) (has_count : Bool)
    (mean_cols var_cols : List String) (cov_cols : List (String × String))
    (hc2 : Bool) (mc2 vc2 : List String) (cc2 : List (String × String))
    (hval : _validate_aggr_cols has_count mean_cols var_cols cov_cols
      = (hc2, mc2, vc2, cc2)) :
    (∃ R, S.filter has_count mean_cols var_cols cov_cols = .ok R ∧
      R._count = (if hc2 then S._count else none) ∧
      (∀ k, dlookup R._mean k = if k ∈ mc2 then dlookup S._mean k else none) ∧
      (∀ k, dlookup R._var k = if k ∈ vc2 then dlookup S._var k else none) ∧
      (∀ p, dlookup R._cov p = if p ∈ cc2 then dlookup S._cov p else none)) ∨
    (S.filter has_count mean_cols var_cols cov_cols
        = .error .countUndefined ∧ hc2 = true ∧ S._count = none) ∨
    (S.filter has_count mean_cols var_cols cov_cols = .error .keyNotFound ∧
      (hc2 = true → S._count ≠ none) ∧
      ((∃ k, k ∈ mc2 ∧ dlookup S._mean k = none) ∨
       (∃ k, k ∈ vc2 ∧ dlookup S._var k = none) ∨
       (∃ p, p ∈ cc2 ∧ dlookup S._cov p = none))) := by
  have hcanon : ∀ p ∈ cc2, sorted_tuple p.1 p.2 = p := by
    have h := validate_cov_canonical has_count mean_cols var_cols cov_cols
    rw [hval] at h
    exact h
  cases hc2 with
  | true =>
    cases hcount : S._count with
    | none =>
      right; left
      refine ⟨?_, rfl, rfl⟩
      unfold Aggregates.filter
      rw [hval]
      simp [Aggregates.count, hcount]
    | some n =>
      have hEq : S.filter has_count mean_cols var_cols cov_cols
          = (buildMapM mc2 (fun col => S.mean (some col)) >>= fun mean =>
            buildMapM vc2 (fun col => S.var (some col)) >>= fun var =>
            buildMapM cc2 (fun cols => S.cov (some cols.1) (some cols.2)) >>= fun cov =>
            pure (Aggregates.init (some n) mean var cov)) := by
        unfold Aggregates.filter
        rw [hval]
        simp [Aggregates.count, hcount]
      rcases filter_body_characterize S mc2 vc2 cc2 hcanon (some n) with
        ⟨R, hR, hcnt, hrest⟩ | ⟨herr, hmiss⟩
      · left
        exact ⟨R, by rw [hEq]; exact hR, by rw [hcnt]; simp, hrest⟩
      · right; right
        exact ⟨by rw [hEq]; exact herr, by simp, hmiss⟩
  | false =>
    have hEq : S.filter has_count mean_cols var_cols cov_cols
        = (buildMapM mc2 (fun col => S.mean (some col)) >>= fun mean =>
          buildMapM vc2 (fun col => S.var (some col)) >>= fun var =>
          buildMapM cc2 (fun cols => S.cov (some cols.1) (some cols.2)) >>= fun cov =>
          pure (Aggregates.init none mean var cov)) := by
      unfold Aggregates.filter
      rw [hval]
      simp
    rcases filter_body_characterize S mc2 vc2 cc2 hcanon none with
      ⟨R, hR, hcnt, hrest⟩ | ⟨herr, hmiss⟩
    · left
      exact ⟨R, by rw [hEq]; exact hR, by rw [hcnt]; simp, hrest⟩
    · right; right
      exact ⟨by rw [hEq]; exact herr, by simp, hmiss⟩

/-- Witness for C4 amended: a store without a count, filtered with a
variance request, ends in the `countUndefined` branch. -/
theorem c4_filter_characterization_amended_witness :
    (⟨none, [], [("x", 1)], []⟩ : Aggregates).filter false [] ["x"] []
      = Except.error AggrError.countUndefined := by
  have heval : (⟨none, [], [("x", 1)], []⟩ : Aggregates).filter false [] ["x"] []
      = Except.error AggrError.countUndefined := rfl
  have h := c4_filter_characterization_amended ⟨none, [], [("x", 1)], []⟩
    false [] ["x"] [] true ["x"] ["x"] [] rfl
  rcases h with ⟨R, hR, _⟩ | ⟨h1, _, _⟩ | ⟨h1, _, _⟩
  · rw [heval] at hR
    cases hR
  · exact h1
  · rw [heval] at h1
    cases h1

theorem filter_tail_ok_parts {S R : Aggregates} {mc2 vc2 : List String}
    {cc2 : List (String × String)} {cnt : Option ℤ}
    (h : (buildMapM mc2 (fun col => S.mean (some col)) >>= fun mean =>
        buildMapM vc2 (fun col => S.var (some col)) >>= fun var =>
        buildMapM cc2 (fun cols => S.cov (some cols.1) (some cols.2)) >>= fun cov =>
        pure (Aggregates.init cnt mean var cov)) = .ok R) :
    ∃ mL vL cL,
      R = Aggregates.init cnt mL vL cL ∧
      buildMapM mc2 (fun col => S.mean (some col)) = .ok mL ∧
      buildMapM vc2 (fun col => S.var (some col)) = .ok vL ∧
      buildMapM cc2 (fun cols => S.cov (some cols.1) (some cols.2)) = .ok cL := by
  cases hm : buildMapM mc2 (fun col => S.mean (some col)) with
  | error e => rw [hm] at h; simp at h
  | ok mL =>
    rw [hm] at h
    simp only [ok_bind] at h
    cases hv : buildMapM vc2 (fun col => S.var (some col)) with
    | error e => rw [hv] at h; simp at h
    | ok vL =>
      rw [hv] at h
      simp only [ok_bind] at h
      cases hc : buildMapM cc2 (fun cols => S.cov (some cols.1) (some cols.2)) with
      | error e => rw [hc] at h; simp at h
      | ok cL =>
        rw [hc] at h
        simp only [ok_bind, pure_eq_ok, Except.ok.injEq] at h
        exact ⟨mL, vL, cL, h.symm, rfl, rfl, rfl⟩

theorem filter_ok_parts {S R : Aggregates} {has_count : Bool}
    {mean_cols var_cols : List String} {cov_cols : List (String × String)}
    {hc2 : Bool} {mc2 vc2 : List String} {cc2 : List (String × String)}
    (hval : _validate_aggr_cols has_count mean_cols var_cols cov_cols
      = (hc2, mc2, vc2, cc2))
    (h : S.filter has_count mean_cols var_cols cov_cols = .ok R) :
    ∃ cnt mL vL cL,
      R = Aggregates.init cnt mL vL cL ∧
      buildMapM mc2 (fun col => S.mean (some col)) = .ok mL ∧
      buildMapM vc2 (fun col => S.var (some col)) = .ok vL ∧
      buildMapM cc2 (fun cols => S.cov (some cols.1) (some cols.2)) = .ok cL ∧
      ((hc2 = true ∧ ∃ n, S._count = some n ∧ cnt = some n) ∨
        (hc2 = false ∧ cnt = none)) := by
  unfold Aggregates.filter at h
  rw [hval] at h
  cases hc2 with
  | true =>
    cases hcount : S._count with
    | none => simp [Aggregates.count, hcount] at h
    | some n =>
      simp only [Aggregates.count, hcount, ok_bind, pure_eq_ok, if_true] at h
      obtain ⟨mL, vL, cL, hR, hm, hv, hc⟩ := filter_tail_ok_parts h
      exact ⟨some n, mL, vL, cL, hR, hm, hv, hc, Or.inl ⟨rfl, n, rfl, rfl⟩⟩
  | false =>
    simp only [Bool.false_eq_true, if_false, pure_eq_ok, ok_bind] at h
    obtain ⟨mL, vL, cL, hR, hm, hv, hc⟩ := filter_tail_ok_parts h
    exact ⟨none, mL, vL, cL, hR, hm, hv, hc, Or.inr ⟨rfl, rfl⟩⟩

/-- C5: `filter` is idempotent: whenever `filter(S, spec)` succeeds with
result `R`, filtering `R` again with the same specification succeeds and
reproduces `R` exactly. -/
theorem c5_filter_idempotent (S : Aggregates) (has_count : Bool)
    (mean_cols var_cols : List String) (cov_cols : List (String × String))
    (R : Aggregates)
    (h : S.filter has_count mean_cols var_cols cov_cols = .ok R) :
    R.filter has_count mean_cols var_cols cov_cols = .ok R := by
  rcases hval : _validate_aggr_cols has_count mean_cols var_cols cov_cols with
    ⟨hc2, mc2, vc2, cc2⟩
  obtain ⟨cnt, mL, vL, cL, hR, hm, hv, hc, hcase⟩ := filter_ok_parts hval h
  have hcanon : ∀ p ∈ cc2, sorted_tuple p.1 p.2 = p := by
    have hcan := validate_cov_canonical has_count mean_cols var_cols cov_cols
    rw [hval] at hcan
    exact hcan
  have hRmean : R._mean = mL := by rw [hR]; rfl
  have hRvar : R._var = vL := by rw [hR]; rfl
  have hRcov : R._cov = cL := by
    rw [hR]
    show canonCov cL [] = cL
    refine canonCov_id cL ?_ (buildGo_ok_nodup hc (by simp))
    intro p hp
    have hmem := (buildGo_ok_keys hc p).mp hp
    simp only [List.map_nil, List.not_mem_nil, or_false] at hmem
    exact hcanon p hmem
  have hm2 : buildMapM mc2 (fun col => R.mean (some col)) = .ok mL := by
    have hcongr : buildGo (fun col => R.mean (some col)) mc2 ([] : List (String × ℚ))
        = buildGo (fun col => S.mean (some col)) mc2 [] := by
      apply buildGo_congr
      intro k hk
      obtain ⟨v, hfv, hlk⟩ := (buildGo_ok_spec hm).1 k hk
      have hrv : R.mean (some k) = .ok v :=
        (mean_ok_iff R k v).mpr (by rw [hRmean]; exact hlk)
      rw [hrv, hfv]
    show buildGo (fun col => R.mean (some col)) mc2 [] = .ok mL
    rw [hcongr]
    exact hm
  have hv2 : buildMapM vc2 (fun col => R.var (some col)) = .ok vL := by
    have hcongr : buildGo (fun col => R.var (some col)) vc2 ([] : List (String × ℚ))
        = buildGo (fun col => S.var (some col)) vc2 [] := by
      apply buildGo_congr
      intro k hk
      obtain ⟨v, hfv, hlk⟩ := (buildGo_ok_spec hv).1 k hk
      have hrv : R.var (some k) = .ok v :=
        (var_ok_iff R k v).mpr (by rw [hRvar]; exact hlk)
      rw [hrv, hfv]
    show buildGo (fun col => R.var (some col)) vc2 [] = .ok vL
    rw [hcongr]
    exact hv
  have hcv2 : buildMapM cc2 (fun cols => R.cov (some cols.1) (some cols.2)) = .ok cL := by
    have hcongr : buildGo (fun cols => R.cov (some cols.1) (some cols.2)) cc2
        ([] : List ((String × String) × ℚ))
        = buildGo (fun cols => S.cov (some cols.1) (some cols.2)) cc2 [] := by
      apply buildGo_congr
      intro p hp
      obtain ⟨v, hfv, hlk⟩ := (buildGo_ok_spec hc).1 p hp
      have hrv : R.cov (some p.1) (some p.2) = .ok v := by
        refine (cov_ok_iff R p.1 p.2 v).mpr ?_
        rw [hRcov, hcanon p hp]
        exact hlk
      rw [hrv, hfv]
    show buildGo (fun cols => R.cov (some cols.1) (some cols.2)) cc2 [] = .ok cL
    rw [hcongr]
    exact hc
  unfold Aggregates.filter
  rw [hval]
  rcases hcase with ⟨hhc, n, hSc, hcnt⟩ | ⟨hhc, hcnt⟩
  · subst hhc
    have hRcount : R._count = some n := by rw [hR, hcnt]; rfl
    simp only [Aggregates.count, hRcount, ok_bind, pure_eq_ok, if_true]
    rw [hm2, hv2, hcv2]
    simp only [ok_bind, pure_eq_ok, Except.ok.injEq]
    rw [hR, hcnt]
  · subst hhc
    simp only [Bool.false_eq_true, if_false, pure_eq_ok, ok_bind]
    rw [hm2, hv2, hcv2]
    simp only [ok_bind, pure_eq_ok, Except.ok.injEq]
    rw [hR, hcnt]

/-- Witness for C5 at a concrete store and specification. -/
theorem c5_filter_idempotent_witness :
    (⟨some 10, [("x", 2), ("y", 4)], [("x", 1)], [(("x", "y"), 1/2)]⟩
        : Aggregates).filter false [] ["x"] [("y", "x")]
      = Except.ok (⟨some 10, [("x", 2), ("y", 4)], [("x", 1)],
          [(("x", "y"), 1/2)]⟩ : Aggregates) ∧
    (⟨some 10, [("x", 2), ("y", 4)], [("x", 1)], [(("x", "y"), 1/2)]⟩
        : Aggregates).filter false [] ["x"] [("y", "x")]
      = Except.ok (⟨some 10, [("x", 2), ("y", 4)], [("x", 1)],
          [(("x", "y"), 1/2)]⟩ : Aggregates) :=
  ⟨rfl, c5_filter_idempotent
    ⟨some 10, [("x", 2), ("y", 4)], [("x", 1)], [(("x", "y"), 1/2)]⟩
    false [] ["x"] [("y", "x")]
    ⟨some 10, [("x", 2), ("y", 4)], [("x", 1)], [(("x", "y"), 1/2)]⟩ rfl⟩

/-! ### Commutativity of the pooled statistics -/

theorem _add_mean_comm {a b : Aggregates} {k : String} {w1 w2 : ℚ}
    (h1 : _add_mean a b k = .ok w1) (h2 : _add_mean b a k = .ok w2) : w1 = w2 := by
  unfold _add_mean at h1 h2
  cases hca : a._count with
  | none => simp [Aggregates.count, hca] at h1
  | some n1 =>
    cases hcb : b._count with
    | none =>
      simp only [Aggregates.count, hca, hcb, ok_bind] at h1
      cases hma : a.mean (some k) with
      | error e => rw [hma] at h1; simp at h1
      | ok v => rw [hma] at h1; simp at h1
    | some n2 =>
      cases hma : dlookup a._mean k with
      | none => simp [Aggregates.count, hca, hcb, Aggregates.mean, hma] at h1
      | some m1 =>
        cases hmb : dlookup b._mean k with
        | none => simp [Aggregates.count, hca, hcb, Aggregates.mean, hma, hmb] at h1
        | some m2 =>
          simp only [Aggregates.count, hca, hcb, Aggregates.mean, hma, hmb,
            ok_bind, pure_eq_ok, Except.ok.injEq] at h1 h2
          rw [← h1, ← h2]
          push_cast
          ring

theorem _add_var_comm {a b : Aggregates} {k : String} {w1 w2 : ℚ}
    (h1 : _add_var a b k = .ok w1) (h2 : _add_var b a k = .ok w2) : w1 = w2 := by
  unfold _add_var at h1 h2
  cases hca : a._count with
  | none => simp [Aggregates.count, hca] at h1
  | some n1 =>
    cases hcb : b._count with
    | none => simp [Aggregates.count, hca, hcb] at h1
    | some n2 =>
      cases hma : dlookup a._mean k with
      | none => simp [Aggregates.count, hca, hcb, Aggregates.mean, hma] at h1
      | some m1 =>
        cases hmb : dlookup b._mean k with
        | none => simp [Aggregates.count, hca, hcb, Aggregates.mean, hma, hmb] at h1
        | some m2 =>
          cases hva : dlookup a._var k with
          | none =>
            simp [Aggregates.count, hca, hcb, Aggregates.mean, hma, hmb,
              Aggregates.var, hva] at h1
          | some v1 =>
            cases hvb : dlookup b._var k with
            | none =>
              simp [Aggregates.count, hca, hcb, Aggregates.mean, hma, hmb,
                Aggregates.var, hva, hvb] at h1
            | some v2 =>
              simp only [Aggregates.count, hca, hcb, Aggregates.mean, hma, hmb,
                Aggregates.var, hva, hvb, ok_bind, pure_eq_ok, Except.ok.injEq]
                at h1 h2
              rw [← h1, ← h2]
              push_cast
              ring

theorem _add_cov_comm {a b : Aggregates} {p : String × String} {w1 w2 : ℚ}
    (h1 : _add_cov a b p = .ok w1) (h2 : _add_cov b a p = .ok w2) : w1 = w2 := by
  unfold _add_cov at h1 h2
  cases hca : a._count with
  | none => simp [Aggregates.count, hca] at h1
  | some n1 =>
    cases hcb : b._count with
    | none => simp [Aggregates.count, hca, hcb] at h1
    | some n2 =>
      cases hma0 : dlookup a._mean p.1 with
      | none => simp [Aggregates.count, hca, hcb, Aggregates.mean, hma0] at h1
      | some m1a =>
        cases hmb0 : dlookup b._mean p.1 with
        | none =>
          simp [Aggregates.count, hca, hcb, Aggregates.mean, hma0, hmb0] at h1
        | some m2a =>
          cases hma1 : dlookup a._mean p.2 with
          | none =>
            simp [Aggregates.count, hca, hcb, Aggregates.mean, hma0, hmb0,
              hma1] at h1
          | some m1b =>
            cases hmb1 : dlookup b._mean p.2 with
            | none =>
              simp [Aggregates.count, hca, hcb, Aggregates.mean, hma0, hmb0,
                hma1, hmb1] at h1
            | some m2b =>
              cases hcvA : dlookup a._cov (sorted_tuple p.1 p.2) with
              | none =>
                simp [Aggregates.count, hca, hcb, Aggregates.mean, hma0, hmb0,
                  hma1, hmb1, Aggregates.cov, hcvA] at h1
              | some c1 =>
                cases hcvB : dlookup b._cov (sorted_tuple p.1 p.2) with
                | none =>
                  simp [Aggregates.count, hca, hcb, Aggregates.mean, hma0, hmb0,
                    hma1, hmb1, Aggregates.cov, hcvA, hcvB] at h1
                | some c2 =>
                  simp only [Aggregates.count, hca, hcb, Aggregates.mean, hma0,
                    hmb0, hma1, hmb1, Aggregates.cov, hcvA, hcvB, ok_bind,
                    pure_eq_ok, Except.ok.injEq] at h1 h2
                  rw [← h1, ← h2]
                  push_cast
                  ring

/-- C8: the merge operator is commutative in exact arithmetic.  For stores
satisfying the merge precondition — same mean/variance/covariance key sets,
counts defined and at least 2, covariance keys canonical as `__init__`
guarantees — `a + b` and `b + a` agree on the count and pointwise on every
mean, variance and covariance. -/
theorem c8_add_comm (a b : Aggregates) (n1 n2 : ℤ)
    (hca : a._count = some n1) (hcb : b._count = some n2)
    (_h2a : 2 ≤ n1) (_h2b : 2 ≤ n2)
    (hkm : ∀ k, k ∈ a._mean.map Prod.fst ↔ k ∈ b._mean.map Prod.fst)
    (hkv : ∀ k, k ∈ a._var.map Prod.fst ↔ k ∈ b._var.map Prod.fst)
    (hkc : ∀ p, p ∈ a._cov.map Prod.fst ↔ p ∈ b._cov.map Prod.fst)
    (hcanA : ∀ p ∈ a._cov.map Prod.fst, sorted_tuple p.1 p.2 = p)
    (hcanB : ∀ p ∈ b._cov.map Prod.fst, sorted_tuple p.1 p.2 = p)
    (R1 R2 : Aggregates)
    (h1 : a.add b = .ok R1) (h2 : b.add a = .ok R2) :
    R1._count = R2._count ∧
    (∀ k, dlookup R1._mean k = dlookup R2._mean k) ∧
    (∀ k, dlookup R1._var k = dlookup R2._var k) ∧
    (∀ p, dlookup R1._cov p = dlookup R2._cov p) := by
  obtain ⟨cnt1, mL1, vL1, cL1, hR1, hbm1, hbv1, hbc1, hcase1⟩ := add_ok_parts h1
  obtain ⟨cnt2, mL2, vL2, cL2, hR2, hbm2, hbv2, hbc2, hcase2⟩ := add_ok_parts h2
  have hcnt1 : cnt1 = some (n1 + n2) := by
    rcases hcase1 with ⟨hnone, _⟩ | ⟨m1, m2, hm1, hm2, hc⟩
    · rw [hca] at hnone; cases hnone
    · rw [hca] at hm1; rw [hcb] at hm2; cases hm1; cases hm2; exact hc
  have hcnt2 : cnt2 = some (n2 + n1) := by
    rcases hcase2 with ⟨hnone, _⟩ | ⟨m1, m2, hm1, hm2, hc⟩
    · rw [hcb] at hnone; cases hnone
    · rw [hcb] at hm1; rw [hca] at hm2; cases hm1; cases hm2; exact hc
  have hR1mean : R1._mean = mL1 := by rw [hR1]; rfl
  have hR2mean : R2._mean = mL2 := by rw [hR2]; rfl
  have hR1var : R1._var = vL1 := by rw [hR1]; rfl
  have hR2var : R2._var = vL2 := by rw [hR2]; rfl
  have hkeys1 : ∀ p, p ∈ cL1.map Prod.fst ↔ p ∈ a._cov.map Prod.fst := by
    intro p
    rw [buildGo_ok_keys hbc1 p]
    simp
  have hkeys2 : ∀ p, p ∈ cL2.map Prod.fst ↔ p ∈ b._cov.map Prod.fst := by
    intro p
    rw [buildGo_ok_keys hbc2 p]
    simp
  have hR1cov : R1._cov = cL1 := by
    rw [hR1]
    show canonCov cL1 [] = cL1
    refine canonCov_id cL1 ?_ (buildGo_ok_nodup hbc1 (by simp))
    intro p hp
    exact hcanA p ((hkeys1 p).mp hp)
  have hR2cov : R2._cov = cL2 := by
    rw [hR2]
    show canonCov cL2 [] = cL2
    refine canonCov_id cL2 ?_ (buildGo_ok_nodup hbc2 (by simp))
    intro p hp
    exact hcanB p ((hkeys2 p).mp hp)
  refine ⟨?_, ?_, ?_, ?_⟩
  · rw [hR1, hR2]
    show cnt1 = cnt2
    rw [hcnt1, hcnt2, Int.add_comm]
  · intro k
    rw [hR1mean, hR2mean]
    by_cases hk : k ∈ a._mean.map Prod.fst
    · obtain ⟨v1, hv1, hl1⟩ := (buildGo_ok_spec hbm1).1 k hk
      obtain ⟨v2, hv2, hl2⟩ := (buildGo_ok_spec hbm2).1 k ((hkm k).mp hk)
      rw [hl1, hl2, _add_mean_comm hv1 hv2]
    · rw [(buildGo_ok_spec hbm1).2 k hk,
        (buildGo_ok_spec hbm2).2 k (fun hmem => hk ((hkm k).mpr hmem))]
  · intro k
    rw [hR1var, hR2var]
    by_cases hk : k ∈ a._var.map Prod.fst
    · obtain ⟨v1, hv1, hl1⟩ := (buildGo_ok_spec hbv1).1 k hk
      obtain ⟨v2, hv2, hl2⟩ := (buildGo_ok_spec hbv2).1 k ((hkv k).mp hk)
      rw [hl1, hl2, _add_var_comm hv1 hv2]
    · rw [(buildGo_ok_spec hbv1).2 k hk,
        (buildGo_ok_spec hbv2).2 k (fun hmem => hk ((hkv k).mpr hmem))]
  · intro p
    rw [hR1cov, hR2cov]
    by_cases hp : p ∈ a._cov.map Prod.fst
    · obtain ⟨v1, hv1, hl1⟩ := (buildGo_ok_spec hbc1).1 p hp
      obtain ⟨v2, hv2, hl2⟩ := (buildGo_ok_spec hbc2).1 p ((hkc p).mp hp)
      rw [hl1, hl2, _add_cov_comm hv1 hv2]
    · rw [(buildGo_ok_spec hbc1).2 p hp,
        (buildGo_ok_spec hbc2).2 p (fun hmem => hp ((hkc p).mpr hmem))]

/-- Witness for C8: two concrete stores over variables `x`, `y` with the
same key sets (listed in different orders), counts 3 and 4. -/
theorem c8_add_comm_witness :
    (⟨some 3, [("x", 2), ("y", 3)], [("x", 1)], [(("x", "y"), 1/2)]⟩
        : Aggregates).add
      ⟨some 4, [("y", 5), ("x", 11/2)], [("x", 5/3)], [(("x", "y"), 1/4)]⟩
      = Except.ok (⟨some 7, [("x", 4), ("y", 29/7)], [("x", 14/3)],
          [(("x", "y"), 55/24)]⟩ : Aggregates) ∧
    (⟨some 4, [("y", 5), ("x", 11/2)], [("x", 5/3)], [(("x", "y"), 1/4)]⟩
        : Aggregates).add
      ⟨some 3, [("x", 2), ("y", 3)], [("x", 1)], [(("x", "y"), 1/2)]⟩
      = Except.ok (⟨some 7, [("y", 29/7), ("x", 4)], [("x", 14/3)],
          [(("x", "y"), 55/24)]⟩ : Aggregates) ∧
    (⟨some 7, [("x", 4), ("y", 29/7)], [("x", 14/3)], [(("x", "y"), 55/24)]⟩
        : Aggregates)._count
      = (⟨some 7, [("y", 29/7), ("x", 4)], [("x", 14/3)], [(("x", "y"), 55/24)]⟩
        : Aggregates)._count ∧
    dlookup (⟨some 7, [("x", 4), ("y", 29/7)], [("x", 14/3)],
        [(("x", "y"), 55/24)]⟩ : Aggregates)._mean "x"
      = dlookup (⟨some 7, [("y", 29/7), ("x", 4)], [("x", 14/3)],
        [(("x", "y"), 55/24)]⟩ : Aggregates)._mean "x" ∧
    dlookup (⟨some 7, [("x", 4), ("y", 29/7)], [("x", 14/3)],
        [(("x", "y"), 55/24)]⟩ : Aggregates)._var "x"
      = dlookup (⟨some 7, [("y", 29/7), ("x", 4)], [("x", 14/3)],
        [(("x", "y"), 55/24)]⟩ : Aggregates)._var "x" ∧
    dlookup (⟨some 7, [("x", 4), ("y", 29/7)], [("x", 14/3)],
        [(("x", "y"), 55/24)]⟩ : Aggregates)._cov ("x", "y")
      = dlookup (⟨some 7, [("y", 29/7), ("x", 4)], [("x", 14/3)],
        [(("x", "y"), 55/24)]⟩ : Aggregates)._cov ("x", "y") := by
  have hst : sorted_tuple "x" "y" = ("x", "y") := rfl
  have hne1 : ("x" : String) ≠ "y" := by decide
  have hne2 : ("y" : String) ≠ "x" := by decide
  have hadd1 : (⟨some 3, [("x", 2), ("y", 3)], [("x", 1)], [(("x", "y"), 1/2)]⟩
      : Aggregates).add
      ⟨some 4, [("y", 5), ("x", 11/2)], [("x", 5/3)], [(("x", "y"), 1/4)]⟩
      = Except.ok (⟨some 7, [("x", 4), ("y", 29/7)], [("x", 14/3)],
        [(("x", "y"), 55/24)]⟩ : Aggregates) := by
    norm_num [Aggregates.add, Aggregates.count, Aggregates.mean, Aggregates.var,
      Aggregates.cov, Aggregates.init, buildMapM, buildGo, _add_mean, _add_var,
      _add_cov, dinsert, dlookup, canonCov, hst, hne1, hne2]
  have hadd2 : (⟨some 4, [("y", 5), ("x", 11/2)], [("x", 5/3)], [(("x", "y"), 1/4)]⟩
      : Aggregates).add
      ⟨some 3, [("x", 2), ("y", 3)], [("x", 1)], [(("x", "y"), 1/2)]⟩
      = Except.ok (⟨some 7, [("y", 29/7), ("x", 4)], [("x", 14/3)],
        [(("x", "y"), 55/24)]⟩ : Aggregates) := by
    norm_num [Aggregates.add, Aggregates.count, Aggregates.mean, Aggregates.var,
      Aggregates.cov, Aggregates.init, buildMapM, buildGo, _add_mean, _add_var,
      _add_cov, dinsert, dlookup, canonCov, hst, hne1, hne2]
  have h := c8_add_comm
    ⟨some 3, [("x", 2), ("y", 3)], [("x", 1)], [(("x", "y"), 1/2)]⟩
    ⟨some 4, [("y", 5), ("x", 11/2)], [("x", 5/3)], [(("x", "y"), 1/4)]⟩
    3 4 rfl rfl (by norm_num) (by norm_num)
    (by intro k; simp; tauto)
    (fun k => Iff.rfl) (fun p => Iff.rfl)
    (by intro p hp; simp at hp; subst hp; rfl)
    (by intro p hp; simp at hp; subst hp; rfl)
    _ _ hadd1 hadd2
  exact ⟨hadd1, hadd2, h.1, h.2.1 "x", h.2.2.1 "x", h.2.2.2 ("x", "y")⟩

/-- C10: canonical-key invariant.  After construction through `__init__`
(hence also after `filter` and `__add__`, which build their result through
it), every covariance key is a canonically sorted pair and the keys are
pairwise distinct — so no two keys denote the same unordered pair; and a
constructor input holding both orderings of the same unordered pair with
different values silently collapses to a single entry, the later value
overwriting the earlier, with no error. -/
theorem c10_cov_canonical_keys :
    (∀ (count : Option ℤ) (mean var : List (String × ℚ))
        (cov : List ((String × String) × ℚ)),
      (∀ p ∈ (Aggregates.init count mean var cov)._cov.map Prod.fst,
        sorted_tuple p.1 p.2 = p) ∧
      ((Aggregates.init count mean var cov)._cov.map Prod.fst).Nodup) ∧
    (∀ (S R : Aggregates) (hc : Bool) (mc vc : List String)
        (cc : List (String × String)),
      S.filter hc mc vc cc = .ok R →
      (∀ p ∈ R._cov.map Prod.fst, sorted_tuple p.1 p.2 = p) ∧
        (R._cov.map Prod.fst).Nodup) ∧
    (∀ a b R : Aggregates, a.add b = .ok R →
      (∀ p ∈ R._cov.map Prod.fst, sorted_tuple p.1 p.2 = p) ∧
        (R._cov.map Prod.fst).Nodup) ∧
    (Aggregates.init none [] [] [(("x", "y"), 1), (("y", "x"), 2)])._cov
      = [(("x", "y"), 2)] := by
  have hinit : ∀ (count : Option ℤ) (mean var : List (String × ℚ))
      (cov : List ((String × String) × ℚ)),
      (∀ p ∈ (Aggregates.init count mean var cov)._cov.map Prod.fst,
        sorted_tuple p.1 p.2 = p) ∧
      ((Aggregates.init count mean var cov)._cov.map Prod.fst).Nodup := by
    intro count mean var cov
    exact canonCov_keys_canonical cov [] ⟨by simp, by simp⟩
  refine ⟨hinit, ?_, ?_, ?_⟩
  · intro S R hc mc vc cc h
    rcases hval : _validate_aggr_cols hc mc vc cc with ⟨hc2, mc2, vc2, cc2⟩
    obtain ⟨cnt, mL, vL, cL, hR, _, _, _, _⟩ := filter_ok_parts hval h
    rw [hR]
    exact hinit cnt mL vL cL
  · intro a b R h
    obtain ⟨cnt, mL, vL, cL, hR, _, _, _, _⟩ := add_ok_parts h
    rw [hR]
    exact hinit cnt mL vL cL
  · rfl

/-- Witness for C10 at concrete inputs: the duplicate-orderings input
collapses to one canonical entry, and a concrete filter result keeps
canonical, duplicate-free covariance keys. -/
theorem c10_cov_canonical_keys_witness :
    ((Aggregates.init none [] [] [(("x", "y"), 1), (("y", "x"), 2)])._cov.map
      Prod.fst).Nodup ∧
    (Aggregates.init none [] [] [(("x", "y"), 1), (("y", "x"), 2)])._cov
      = [(("x", "y"), 2)] ∧
    sorted_tuple "y" "x" = ("x", "y") := by
  refine ⟨(c10_cov_canonical_keys.1 none [] []
    [(("x", "y"), 1), (("y", "x"), 2)]).2, c10_cov_canonical_keys.2.2.2, rfl⟩
